import Mathlib

/-!
Verification of the TurboGet download engine (`turbo_get/engine.py`,
`turbo_get/models.py`) against its natural-language specification.

The Python source is shallowly embedded: dataclasses become structures,
Python unbounded `int` becomes `Int` (or `Nat` where the source value is a
count of bytes or an index), methods become pure functions over explicit
state, and the points where the source can raise become `Option`/sum
results.  Python `//` on non-negative operands agrees with `Int` division
(`/` is Euclidean division here, which coincides with Python floor
division for positive divisors).
-/

namespace TurboGet

/-- Embeds the `ChunkInfo` dataclass of `turbo_get/models.py`.  The Python
field `end` is a Lean keyword and is rendered `end_`.  The diagnostic
`speed : float` field is omitted: it is floating point, never read by the
engine, and only ever holds its default `0.0` in the source. -/
structure ChunkInfo where
  start : Int
  end_ : Int
  downloaded : Int := 0
  completed : Bool := false
  retries : Nat := 0
  thread_id : Option Nat := none
deriving Repr, DecidableEq

/-- Embeds the `ServerCapabilities` dataclass of `turbo_get/models.py`. -/
structure ServerCapabilities where
  supports_range : Bool := false
  supports_resume : Bool := false
  supports_compression : Bool := false
  supports_http2 : Bool := false
  max_connections : Nat := 8
  content_encoding : Option String := none
deriving Repr, DecidableEq

/-- The byte length of a chunk, `end - start + 1` (inclusive range). -/
def chunkLen (c : ChunkInfo) : Int :=
  c.end_ - c.start + 1

/-- Status messages the engine emits through `_update_status`, rendered as
structured events rather than formatted strings. -/
inductive StatusEvent where
  | probeFailed
  | probeOk
  | metadataMismatch
  | metadataLoadFailed
  | resuming
  | verifying
  | fileNotFound
  | sizeMismatch (expected : Int) (actual : Nat)
  | calculating
  | verifyComplete (digest16 : String)
deriving Repr, DecidableEq

/-- Embeds the fresh-plan branch of `DownloadEngine.prepare_chunks`
(engine.py lines 108-117): if range is supported and `total_size > 0`,
partition into `num_threads` chunks of `total_size // num_threads` bytes
with the last chunk's `end` forced to `total_size - 1`; otherwise a single
chunk `[0, total_size - 1]`, degenerating to the `[0, -1]` sentinel when
`total_size` is not positive.  (`num_threads = 0` raises
`ZeroDivisionError` in the source; the embedding is only used with
`num_threads ≥ 1`.) -/
def freshChunks (supports_range : Bool) (total_size : Int) (num_threads : Nat) : List ChunkInfo :=
  if supports_range = true ∧ total_size > 0 then
    let chunk_size : Int := total_size / num_threads
    (List.range num_threads).map (fun i : Nat =>
      { start := (i : Int) * chunk_size
        end_ := if i = num_threads - 1 then total_size - 1 else (i : Int) * chunk_size + chunk_size - 1 })
  else
    [{ start := 0, end_ := if total_size > 0 then total_size - 1 else -1 }]

/-- Embeds `DownloadEngine.get_next_chunk` (engine.py lines 203-210): scan
the chunk vector in order, mark the first chunk that is not completed and
has no claimant with the caller's worker id, and return it.  The Python
method returns the (aliased) chunk object; the embedding returns its index
together with the updated vector. -/
def get_next_chunk : List ChunkInfo → Nat → Option Nat × List ChunkInfo
  | [], _ => (none, [])
  | c :: rest, worker_id =>
    if c.completed = false ∧ c.thread_id = none then
      (some 0, { c with thread_id := some worker_id } :: rest)
    else
      let r := get_next_chunk rest worker_id
      (r.1.map (· + 1), c :: r.2)

/-! ## Chunk transfer (engine.py lines 160-201) -/

/-- One 8 KiB-bounded block arriving from `response.content.iter_chunked`:
the source writes it at the file offset `start + downloaded` and advances
`chunk.downloaded` by the block's byte count (engine.py lines 179-187). -/
def applyBlock (c : ChunkInfo) (n : Nat) : ChunkInfo :=
  { c with downloaded := c.downloaded + n }

/-- Streaming a whole response body, given as the list of block sizes the
`async for` loop receives. -/
def streamBlocks (c : ChunkInfo) (blocks : List Nat) : ChunkInfo :=
  blocks.foldl applyBlock c

/-- The statement `chunk.completed = True` after the stream ends normally
(engine.py line 192). -/
def finishChunk (c : ChunkInfo) : ChunkInfo :=
  { c with completed := true }

/-- The body of one successful attempt: stream every block, then mark the
chunk completed. -/
def downloadAttemptBody (c : ChunkInfo) (blocks : List Nat) : ChunkInfo :=
  finishChunk (streamBlocks c blocks)

/-- What the server does on one attempt of the retry loop.  `failure w`
models an `aiohttp.ClientError` or `asyncio.TimeoutError` (including the
`ClientResponseError` the source raises itself on a status other than 200
or 206) after the blocks `w` were already written; `success w` models a
stream that delivered `w` and ended normally. -/
inductive AttemptResult where
  | failure (written : List Nat)
  | success (written : List Nat)
deriving Repr, DecidableEq

/-- The `max_retries` default of `download_chunk_with_retry`. -/
def max_retries : Nat := 5

/-- Trace entry for one attempt of the retry loop: the chunk state when
the attempt started, the request range `[start + downloaded, end]` the
source computes (engine.py lines 167-168), whether a `Range` header was
sent (line 170), and whether the attempt failed. -/
structure AttemptEvent where
  chunkBefore : ChunkInfo
  rangeFrom : Int
  rangeTo : Int
  sentRange : Bool
  failed : Bool
deriving Repr, DecidableEq

/-- Result of `download_chunk_with_retry`: the attempts made, the backoff
sleeps taken (in seconds, in order), the final chunk state, and the
returned boolean. -/
structure RetryTrace where
  events : List AttemptEvent
  sleeps : List Nat
  finalChunk : ChunkInfo
  success : Bool
deriving Repr, DecidableEq

/-- The `for attempt in range(max_retries)` loop of
`download_chunk_with_retry` (engine.py lines 162-201), unrolled over the
remaining fuel.  On failure the source increments `chunk.retries`, sleeps
`min(2 ** attempt, 30)` seconds and retries with `chunk.downloaded`
keeping the partial progress already written. -/
def retryGo (sr : Bool) (outcome : Nat → AttemptResult) : Nat → Nat → ChunkInfo → RetryTrace
  | 0, _, c => ⟨[], [], c, false⟩
  | fuel + 1, attempt, c =>
    let f := c.start + c.downloaded
    let t := c.end_
    let sent := sr && decide (f ≤ t)
    match outcome attempt with
    | .success w =>
      ⟨[⟨c, f, t, sent, false⟩], [], downloadAttemptBody c w, true⟩
    | .failure w =>
      let c' := streamBlocks c w
      let c'' := { c' with retries := c'.retries + 1 }
      let rest := retryGo sr outcome fuel (attempt + 1) c''
      ⟨⟨c, f, t, sent, true⟩ :: rest.events, min (2 ^ attempt) 30 :: rest.sleeps,
        rest.finalChunk, rest.success⟩

/-- Embeds `DownloadEngine.download_chunk_with_retry` (engine.py lines
160-201) for a running engine (`is_stopped` false throughout); `sr` is
`self.capabilities.supports_range` and `outcome` is the server's behavior
on each attempt. -/
def download_chunk_with_retry (sr : Bool) (outcome : Nat → AttemptResult) (c : ChunkInfo) : RetryTrace :=
  retryGo sr outcome max_retries 0 c

/-! ## Capability probe (engine.py lines 75-101) -/

/-- Header lookup.  aiohttp header maps are case-insensitive multidicts;
keys are modelled already normalized to the spelling the source uses. -/
def lookupHeader (hs : List (String × String)) (k : String) : Option String :=
  (hs.find? (fun p => p.1 = k)).map (fun p => p.2)

/-- One decimal digit value of a character, if it is one. -/
def decDigit? (c : Char) : Option Nat :=
  if 48 ≤ c.toNat ∧ c.toNat ≤ 57 then some (c.toNat - 48) else none

/-- Decimal digits folded into a number; `none` on any non-digit. -/
def decDigits? : List Char → Nat → Option Nat
  | [], acc => some acc
  | c :: rest, acc =>
    match decDigit? c with
    | none => none
    | some d => decDigits? rest (acc * 10 + d)

/-- Python `int(s)` on a decimal string, as an `Option` (a `ValueError`
becomes `none`): an optional sign followed by at least one digit.  Python
also tolerates surrounding whitespace and inner underscores, which no
claim depends on. -/
def pyInt? (s : String) : Option Int :=
  match s.data with
  | [] => none
  | c :: rest =>
    if c.toNat = 45 then
      match rest with
      | [] => none
      | _ :: _ => (decDigits? rest 0).map (fun n => -(n : Int))
    else if c.toNat = 43 then
      match rest with
      | [] => none
      | _ :: _ => (decDigits? rest 0).map (fun n => (n : Int))
    else
      (decDigits? (c :: rest) 0).map (fun n => (n : Int))

/-- Python `s.split('/')[-1]`: the text after the last slash (the whole string
when there is no slash). -/
def afterLastSlash (s : String) : String :=
  (s.splitOn "/").getLastD ""

/-- Result of `DownloadEngine.detect_capabilities`: the capabilities and
`total_size` it leaves on the engine, the possibly-updated `num_threads`,
and the status it reports. -/
structure ProbeOutcome where
  capabilities : ServerCapabilities
  total_size : Int
  num_threads : Nat
  statuses : List StatusEvent
deriving Repr, DecidableEq

/-- The `ServerCapabilities` the probe assigns from the response headers
(engine.py lines 81-85): range support iff `Accept-Ranges` is present
with a value other than `none`; resume support iff the header is present
at all. -/
def probeCaps (hs : List (String × String)) : ServerCapabilities :=
  { supports_range := (lookupHeader hs "Accept-Ranges").isSome &&
      lookupHeader hs "Accept-Ranges" ≠ some "none"
    supports_resume := (lookupHeader hs "Accept-Ranges").isSome
    content_encoding := lookupHeader hs "Content-Encoding" }

/-- The `total_size` computation of the probe (engine.py lines 87-92):
`Content-Range` (integer after the final `/`) first, then
`Content-Length`, else 0; `none` models the `ValueError` a malformed
integer raises out of `int(...)`. -/
def probeTotalSize (hs : List (String × String)) : Option Int :=
  match lookupHeader hs "Content-Range" with
  | some v => pyInt? (afterLastSlash v)
  | none =>
    match lookupHeader hs "Content-Length" with
    | some v => pyInt? v
    | none => some 0

/-- Embeds `DownloadEngine.detect_capabilities` (engine.py lines 75-101).
`resp` is `none` when the HEAD request itself raises.  On a response, the
source first assigns `self.capabilities` from `Accept-Ranges` (range
support iff the header is present with a value other than `none`; resume
support iff the header is present at all), then parses `total_size` from
`Content-Range` (integer after the final `/`) or `Content-Length`; a
parse `ValueError` lands in the same `except` clause as a network error,
which resets `capabilities` to the dataclass defaults and leaves
`total_size` and `num_threads` untouched.  Only the non-raising path
forces `num_threads` to 1 when range is unsupported. -/
def detect_capabilities (resp : Option (List (String × String))) (total_size0 : Int) (num_threads0 : Nat) : ProbeOutcome :=
  match resp with
  | none => ⟨{}, total_size0, num_threads0, [.probeFailed]⟩
  | some hs =>
    match probeTotalSize hs with
    | none => ⟨{}, total_size0, num_threads0, [.probeFailed]⟩
    | some ts =>
      let nt := if (probeCaps hs).supports_range then num_threads0 else 1
      ⟨probeCaps hs, ts, nt, [.probeOk]⟩

/-! ## Resume metadata (engine.py lines 255-290) -/

/-- Embeds the `DownloadMetadata` dataclass of `turbo_get/models.py` as
serialized by `save_metadata`; `created_at` (a wall-clock timestamp) is
passed through as an opaque string and `checksum` is always the default
`None` in the source. -/
structure DownloadMetadata where
  url : String
  filename : String
  total_size : Int
  chunks : List ChunkInfo
  created_at : String
  supports_resume : Bool
  mirrors : List String
deriving Repr, DecidableEq

/-- Embeds `DownloadEngine.save_metadata` (engine.py lines 255-271): the
method returns without writing when `supports_resume` is false, otherwise
it writes the serialized metadata (an `IOError` during the write is
reported and ignored, leaving nothing else changed). -/
def save_metadata (caps : ServerCapabilities) (url filename : String) (total_size : Int) (chunks : List ChunkInfo) (created_at : String) (mirrors : List String) : Option DownloadMetadata :=
  if caps.supports_resume = false then none
  else some ⟨url, filename, total_size, chunks, created_at, caps.supports_resume, mirrors⟩

/-- The JSON document `load_metadata` reads back, after `json.load`:
`url` and `total_size` via `data.get` (absent key gives `None`), the
`chunks` key via `data['chunks']` (absent key raises `KeyError`, which is
caught), and each chunk dict via `ChunkInfo(**chunk)` (a dict whose keys
do not match the dataclass raises `TypeError`, which is NOT caught and is
modelled as a `none` entry). -/
structure SidecarData where
  url : Option String
  total_size : Option Int
  chunks : Option (List (Option ChunkInfo))
deriving Repr, DecidableEq

/-- The ways `load_metadata` can come back. -/
inductive LoadResult where
  /-- `url` or `total_size` disagreed: status, sidecar unlinked, return
  with `self.chunks` untouched. -/
  | mismatch
  /-- `IOError`, `json.JSONDecodeError` or `KeyError`: status, sidecar
  unlinked if present, return with `self.chunks` untouched. -/
  | readFailed
  /-- Chunks restored; `downloaded_size` recomputed as their sum. -/
  | resumed (chunks : List ChunkInfo) (downloaded_size : Int)
  /-- An uncaught exception (`TypeError` from `ChunkInfo(**chunk)`)
  propagates out of `load_metadata`; the sidecar is NOT unlinked. -/
  | raised
deriving Repr, DecidableEq

/-- Embeds `DownloadEngine.load_metadata` (engine.py lines 273-290) for an
existing sidecar.  `read` is `none` when opening or JSON-parsing the file
raises. -/
def load_metadata (read : Option SidecarData) (self_url : String) (self_total : Int) : LoadResult :=
  match read with
  | none => .readFailed
  | some d =>
    if d.url ≠ some self_url ∨ d.total_size ≠ some self_total then
      .mismatch
    else
      match d.chunks with
      | none => .readFailed
      | some entries =>
        if entries.all (fun e => e.isSome) then
          let cs := entries.filterMap id
          .resumed cs ((cs.map (fun c => c.downloaded)).sum)
        else
          .raised

/-- Result of `prepare_chunks`: either the engine state it leaves behind
(`chunks`, `downloaded_size`, whether the sidecar file was deleted), or an
escaped exception. -/
inductive PrepareResult where
  | ok (chunks : List ChunkInfo) (downloaded_size : Int) (sidecarDeleted : Bool)
  | raised (sidecarDeleted : Bool)
deriving Repr, DecidableEq

/-- Embeds `DownloadEngine.prepare_chunks` (engine.py lines 103-117).
`sidecar` is `none` when `self.metadata_file.exists()` is false, and
otherwise carries what reading the file yields.  The fresh partition is
built ONLY in the `else` branch, i.e. only when no sidecar file exists;
when `load_metadata` discards the sidecar it returns with `self.chunks`
still the empty vector from `__init__`. -/
def prepare_chunks (sidecar : Option (Option SidecarData)) (self_url : String) (total_size : Int) (supports_range : Bool) (num_threads : Nat) : PrepareResult :=
  match sidecar with
  | none => .ok (freshChunks supports_range total_size num_threads) 0 false
  | some read =>
    match load_metadata read self_url total_size with
    | .mismatch => .ok [] 0 true
    | .readFailed => .ok [] 0 true
    | .resumed cs d => .ok cs d false
    | .raised => .raised false

/-! ## SHA-256 (used by `verify_download`, engine.py lines 304-311)

The source feeds the destination file through `hashlib.sha256` in 64 KiB
reads; incremental hashing of consecutive reads equals hashing the whole
byte string, so the embedding hashes the file contents in one pass.
All words are `Nat` kept below `2 ^ 32` explicitly with `% w32`. -/

/-- The value `2 ^ 32`, the word modulus of SHA-256. -/
def w32 : Nat := 4294967296

/-- Right rotation of a 32-bit word. -/
def rotr (n x : Nat) : Nat :=
  ((x >>> n) ||| (x <<< (32 - n))) % w32

/-- SHA-256 Σ0. -/
def bigSigma0 (x : Nat) : Nat := rotr 2 x ^^^ rotr 13 x ^^^ rotr 22 x

/-- SHA-256 Σ1. -/
def bigSigma1 (x : Nat) : Nat := rotr 6 x ^^^ rotr 11 x ^^^ rotr 25 x

/-- SHA-256 σ0. -/
def smallSigma0 (x : Nat) : Nat := rotr 7 x ^^^ rotr 18 x ^^^ (x >>> 3)

/-- SHA-256 σ1. -/
def smallSigma1 (x : Nat) : Nat := rotr 17 x ^^^ rotr 19 x ^^^ (x >>> 10)

/-- SHA-256 choice function (with 32-bit complement). -/
def chFun (x y z : Nat) : Nat := (x &&& y) ^^^ ((x ^^^ 0xFFFFFFFF) &&& z)

/-- SHA-256 majority function. -/
def majFun (x y z : Nat) : Nat := (x &&& y) ^^^ (x &&& z) ^^^ (y &&& z)

/-- The 64 SHA-256 round constants. -/
def kConsts : List Nat :=
  [1116352408, 1899447441, 3049323471, 3921009573, 961987163,
   1508970993, 2453635748, 2870763221, 3624381080, 310598401,
   607225278, 1426881987, 1925078388, 2162078206, 2614888103,
   3248222580, 3835390401, 4022224774, 264347078, 604807628,
   770255983, 1249150122, 1555081692, 1996064986, 2554220882,
   2821834349, 2952996808, 3210313671, 3336571891, 3584528711,
   113926993, 338241895, 666307205, 773529912, 1294757372,
   1396182291, 1695183700, 1986661051, 2177026350, 2456956037,
   2730485921, 2820302411, 3259730800, 3345764771, 3516065817,
   3600352804, 4094571909, 275423344, 430227734, 506948616,
   659060556, 883997877, 958139571, 1322822218, 1537002063,
   1747873779, 1955562222, 2024104815, 2227730452, 2361852424,
   2428436474, 2756734187, 3204031479, 3329325298]

/-- The initial SHA-256 hash value. -/
def hInit : List Nat :=
  [1779033703, 3144134277, 1013904242, 2773480762,
   1359893119, 2600822924, 528734635, 1541459225]

/-- The `k` bytes of `n`, big-endian. -/
def beBytes (k : Nat) (n : Nat) : List Nat :=
  (List.range k).map (fun i => (n >>> (8 * (k - 1 - i))) % 256)

/-- SHA-256 padding: append `0x80`, zero bytes up to 56 mod 64, and the
64-bit big-endian bit length. -/
def padMessage (msg : List Nat) : List Nat :=
  let len := msg.length
  let zeros := (64 - ((len + 9) % 64)) % 64
  msg ++ [0x80] ++ List.replicate zeros 0 ++ beBytes 8 (8 * len)

/-- Big-endian 32-bit words from a list of bytes. -/
def toWords : List Nat → List Nat
  | a :: b :: c :: d :: rest => (((a * 256 + b) * 256 + c) * 256 + d) :: toWords rest
  | _ => []

/-- Extend a message schedule by one word. -/
def extendOnce (w : Array Nat) : Array Nat :=
  let n := w.size
  w.push ((smallSigma1 (w.getD (n - 2) 0) + w.getD (n - 7) 0 +
           smallSigma0 (w.getD (n - 15) 0) + w.getD (n - 16) 0) % w32)

/-- The full 64-word message schedule of one block. -/
def schedule (w16 : Array Nat) : Array Nat :=
  (List.range 48).foldl (fun w _ => extendOnce w) w16

/-- One SHA-256 compression round on the 8-word working state. -/
def shaRound (s : List Nat) (k wi : Nat) : List Nat :=
  match s with
  | [a, b, c, d, e, f, g, h] =>
    let t1 := (h + bigSigma1 e + chFun e f g + k + wi) % w32
    let t2 := (bigSigma0 a + majFun a b c) % w32
    [(t1 + t2) % w32, a, b, c, (d + t1) % w32, e, f, g]
  | other => other

/-- Compress one 64-byte block into the running hash value. -/
def compressBlock (hv : List Nat) (block : List Nat) : List Nat :=
  let w := schedule (toWords block).toArray
  let s := (List.range 64).foldl (fun s i => shaRound s (kConsts.getD i 0) (w.getD i 0)) hv
  (hv.zip s).map (fun p => (p.1 + p.2) % w32)

/-- Process a padded message 64 bytes at a time: `acc` collects the bytes
of the block being filled and is compressed as soon as it reaches 64
bytes.  The padded message length is a multiple of 64, so the final `acc`
is always empty.  (Structural recursion on the byte list, so the digest
reduces inside the kernel.) -/
def processPadded (hv : List Nat) (acc : List Nat) : List Nat → List Nat
  | [] => hv
  | b :: rest =>
    let acc2 := acc ++ [b]
    if acc2.length = 64 then processPadded (compressBlock hv acc2) [] rest
    else processPadded hv acc2 rest

/-- The eight 32-bit words of the SHA-256 digest of a byte string. -/
def sha256words (msg : List Nat) : List Nat :=
  processPadded hInit [] (padMessage msg)

/-- A lowercase hex digit. -/
def hexDigit (n : Nat) : Char :=
  Char.ofNat (if n < 10 then 48 + n else 87 + n)

/-- Eight lowercase hex digits of a 32-bit word, big-endian. -/
def toHex8 (n : Nat) : String :=
  String.mk ((List.range 8).map (fun i => hexDigit ((n >>> (4 * (7 - i))) % 16)))

/-- Python `hashlib.sha256(data).hexdigest()`. -/
def sha256hex (msg : List Nat) : String :=
  String.join ((sha256words msg).map toHex8)

/-! ## Verifier (engine.py lines 292-315) -/

/-- The slice of the file system `verify_download` touches: the
destination file (existence and contents) and the sidecar file. -/
structure FsState where
  fileExists : Bool
  fileBytes : List Nat
  sidecarExists : Bool
deriving Repr, DecidableEq

/-- Embeds `DownloadEngine.verify_download` (engine.py lines 292-315):
report; return untouched if the destination is missing; return untouched
if `total_size > 0` and the on-disk size differs; otherwise hash the file,
report the first 16 hex characters of the digest, and unlink the sidecar
if it exists.  The destination file is never written or deleted. -/
def verify_download (total_size : Int) (fs : FsState) : FsState × List StatusEvent :=
  if fs.fileExists = false then
    (fs, [.verifying, .fileNotFound])
  else
    let actual := fs.fileBytes.length
    if total_size > 0 ∧ (actual : Int) ≠ total_size then
      (fs, [.verifying, .sizeMismatch total_size actual])
    else
      ({ fs with sidecarExists := false },
       [.verifying, .calculating, .verifyComplete ((sha256hex fs.fileBytes).take 16)])

/-! ## Worker small-step machine (engine.py lines 143-210, 240-250)

One cooperative worker of `download_worker`, with the engine state it
reads and mutates.  The program counter follows the source: the
`while not self.is_stopped` loop head (line 145), the pause-poll loop
(lines 146-148), the response-body block loop of
`download_chunk_with_retry` (lines 179-190, reached through
`get_next_chunk`), and worker exit.  Block lists carried by `streaming`
are the sizes the server delivers.  Control-surface calls (`pause`,
`resume`, `stop`, lines 240-250) are separate state functions the
environment may interleave between steps. -/

/-- Program counter of one worker. -/
inductive WorkerPC where
  | loopHead
  | pauseLoop
  | streaming (rest : List Nat)
  | finished
deriving Repr, DecidableEq

/-- Engine state visible to one worker. -/
structure WState where
  chunks : List ChunkInfo
  downloaded_size : Int
  is_paused : Bool
  is_stopped : Bool
  worker_id : Nat
  current : Option Nat
  pc : WorkerPC
deriving Repr, DecidableEq

/-- Embeds `DownloadEngine.pause` (engine.py lines 240-242). -/
def pauseEngine (s : WState) : WState := { s with is_paused := true }

/-- Embeds `DownloadEngine.resume` (engine.py lines 244-246). -/
def resumeEngine (s : WState) : WState := { s with is_paused := false }

/-- Embeds `DownloadEngine.stop` (engine.py lines 248-250). -/
def stopEngine (s : WState) : WState := { s with is_stopped := true }

/-- One worker step.  Each constructor is one poll point or one iteration
of a source loop.  Note that the block loop (constructor `stream_write`)
polls ONLY `is_stopped` (engine.py line 180); the pause flag is polled
only at lines 146-148, between chunks. -/
inductive WStep : WState → WState → Prop where
  /-- Line 145: `while not self.is_stopped` fails — worker exits. -/
  | loop_stop (s : WState) :
      s.pc = .loopHead → s.is_stopped = true →
      WStep s { s with pc := .finished }
  /-- Lines 146-147: paused — enter the 100 ms pause-poll sleep. -/
  | loop_pause (s : WState) :
      s.pc = .loopHead → s.is_stopped = false → s.is_paused = true →
      WStep s { s with pc := .pauseLoop }
  /-- Line 148: stopped while in the pause loop — worker returns. -/
  | pause_stop (s : WState) :
      s.pc = .pauseLoop → s.is_stopped = true →
      WStep s { s with pc := .finished }
  /-- Line 146: still paused — sleep again. -/
  | pause_spin (s : WState) :
      s.pc = .pauseLoop → s.is_stopped = false → s.is_paused = true →
      WStep s { s with pc := .pauseLoop }
  /-- Lines 150-152: not paused, `get_next_chunk` finds nothing — exit. -/
  | claim_none (s : WState) :
      (s.pc = .loopHead ∨ s.pc = .pauseLoop) →
      s.is_stopped = false → s.is_paused = false →
      (get_next_chunk s.chunks s.worker_id).1 = none →
      WStep s { s with pc := .finished }
  /-- Lines 150, 154: claim the first free chunk and start an attempt
  whose response will deliver `blocks`. -/
  | claim_some (s : WState) (i : Nat) (cs : List ChunkInfo) (blocks : List Nat) :
      (s.pc = .loopHead ∨ s.pc = .pauseLoop) →
      s.is_stopped = false → s.is_paused = false →
      get_next_chunk s.chunks s.worker_id = (some i, cs) →
      WStep s { s with chunks := cs, current := some i, pc := .streaming blocks }
  /-- Line 180 (or 164): stopped — the attempt returns `False` and the
  worker loop exits. -/
  | stream_stop (s : WState) (rest : List Nat) :
      s.pc = .streaming rest → s.is_stopped = true →
      WStep s { s with pc := .finished }
  /-- Lines 185-187: write one block, advance the chunk and the aggregate
  counter.  No pause poll here. -/
  | stream_write (s : WState) (n : Nat) (rest : List Nat) (i : Nat) (c : ChunkInfo) :
      s.pc = .streaming (n :: rest) → s.is_stopped = false →
      s.current = some i → s.chunks.get? i = some c →
      WStep s { s with chunks := s.chunks.set i (applyBlock c n),
                       downloaded_size := s.downloaded_size + n,
                       pc := .streaming rest }
  /-- Lines 192-193, 156: stream ended — mark completed, save metadata,
  back to the worker loop head. -/
  | stream_done (s : WState) (i : Nat) (c : ChunkInfo) :
      s.pc = .streaming [] → s.current = some i → s.chunks.get? i = some c →
      WStep s { s with chunks := s.chunks.set i (finishChunk c),
                       current := none, pc := .loopHead }
  /-- Lines 195-199: network/timeout error — `retries` incremented,
  backoff sleep, new attempt with a fresh response body. -/
  | stream_error (s : WState) (rest newBlocks : List Nat) (i : Nat) (c : ChunkInfo) :
      s.pc = .streaming rest → s.is_stopped = false →
      s.current = some i → s.chunks.get? i = some c →
      WStep s { s with chunks := s.chunks.set i { c with retries := c.retries + 1 },
                       pc := .streaming newBlocks }
  /-- Lines 201, 157-158: retries exhausted — status reported, worker
  continues its loop without re-claiming (the chunk keeps its
  `thread_id`). -/
  | stream_giveup (s : WState) (rest : List Nat) :
      s.pc = .streaming rest → s.is_stopped = false →
      WStep s { s with current := none, pc := .loopHead }

/-! ## `download` orchestration and cleanup (engine.py lines 119-141)

`download` wraps the whole transfer in `try ... finally` with
`finally: monitor_task.cancel(); if self.session: await self.session.close()`.
The local variable `monitor_task` is bound only at line 132, AFTER
`initialize` (which creates `self.session` at line 72), `prepare_chunks`
and the pre-allocation `open`.  If any of those raises, the `finally`
block's very first statement raises `UnboundLocalError` (a `NameError`),
so `self.session.close()` is never executed. -/

/-- What one run of `download()` did on its exit path. -/
structure DownloadOutcome where
  sessionCreated : Bool
  sessionClosed : Bool
  monitorStarted : Bool
  monitorCancelled : Bool
  finallyRaisedNameError : Bool
  raised : Bool
deriving Repr, DecidableEq

/-- Embeds the control flow of `DownloadEngine.download` (engine.py lines
119-141).  The four booleans say which stage raises: `initRaises` an
exception inside `initialize` before `self.session` is assigned (line
63-72), `prepareRaises` an uncaught exception in `prepare_chunks` (e.g.
the `TypeError` from `ChunkInfo(**chunk)` on a malformed sidecar chunk
dict, engine.py line 285), `preallocRaises` an `OSError` from the
pre-allocation `open` (lines 126-129), `gatherRaises` an uncaught
exception out of `asyncio.gather` (line 134). -/
def download_run (initRaises prepareRaises preallocRaises gatherRaises : Bool) : DownloadOutcome :=
  if initRaises then
    -- finally: `monitor_task` unbound → NameError; no session exists.
    { sessionCreated := false, sessionClosed := false, monitorStarted := false,
      monitorCancelled := false, finallyRaisedNameError := true, raised := true }
  else if prepareRaises ∨ preallocRaises then
    -- session exists; finally raises NameError BEFORE reaching
    -- `self.session.close()`: the session is leaked.
    { sessionCreated := true, sessionClosed := false, monitorStarted := false,
      monitorCancelled := false, finallyRaisedNameError := true, raised := true }
  else
    -- monitor_task is bound; finally cancels it and closes the session.
    { sessionCreated := true, sessionClosed := true, monitorStarted := true,
      monitorCancelled := true, finallyRaisedNameError := false, raised := gatherRaises }

/-! ## Properties of the fresh chunk plan -/

/-- Boundary offsets of the fresh plan: chunk `i` of `W` covers
`[planBnd T W i, planBnd T W (i+1) - 1]`. -/
def planBnd (T : Int) (W : Nat) (i : Nat) : Int :=
  if i = W then T else i * (T / W)

theorem freshChunks_eq_boundaries (T : Int) (W : Nat) (hT : 0 < T) (hW : 1 ≤ W) :
    freshChunks true T W =
      (List.range W).map (fun i => { start := planBnd T W i, end_ := planBnd T W (i + 1) - 1 }) := by
  unfold freshChunks
  rw [if_pos ⟨rfl, hT⟩]
  apply List.map_congr_left
  intro i hi
  rw [List.mem_range] at hi
  have hiW : i ≠ W := Nat.ne_of_lt hi
  congr 1
  · simp [planBnd, hiW]
  · by_cases hlast : i = W - 1
    · have hsucc : i + 1 = W := by omega
      rw [if_pos hlast, hsucc]
      simp [planBnd]
    · have hsucc : i + 1 ≠ W := by omega
      rw [if_neg hlast]
      simp only [planBnd, if_neg hsucc]
      push_cast
      ring

theorem planBnd_zero (T : Int) (W : Nat) (hW : 1 ≤ W) : planBnd T W 0 = 0 := by
  have : (0 : Nat) ≠ W := by omega
  simp [planBnd, this]

theorem chunkSize_pos (T : Int) (W : Nat) (hW : 1 ≤ W) (hWT : (W : Int) ≤ T) :
    1 ≤ T / (W : Int) := by
  have hWpos : (0 : Int) < W := by exact_mod_cast hW
  rw [Int.le_ediv_iff_mul_le hWpos]
  omega

theorem chunkSize_mul_le (T : Int) (W : Nat) (hW : 1 ≤ W) :
    (W : Int) * (T / (W : Int)) ≤ T := by
  have hWne : (W : Int) ≠ 0 := by positivity
  have := Int.ediv_mul_le T hWne
  linarith [this]

theorem planBnd_strictMono (T : Int) (W : Nat) (hW : 1 ≤ W) (hWT : (W : Int) ≤ T) :
    ∀ i j : Nat, i < j → j ≤ W → planBnd T W i < planBnd T W j := by
  intro i j hij hjW
  have hcs : 1 ≤ T / (W : Int) := chunkSize_pos T W hW hWT
  have hiW : i ≠ W := by omega
  by_cases hj : j = W
  · have hi1 : (i : Int) ≤ (W : Int) - 1 := by
      have : i + 1 ≤ W := by omega
      push_cast at this ⊢
      omega
    have hmul : (i : Int) * (T / (W : Int)) ≤ ((W : Int) - 1) * (T / (W : Int)) :=
      mul_le_mul_of_nonneg_right hi1 (by omega)
    have hWmul := chunkSize_mul_le T W hW
    rw [hj]
    simp only [planBnd, if_neg hiW, if_true]
    nlinarith
  · have hcast : (i : Int) < (j : Int) := by exact_mod_cast hij
    simp only [planBnd, if_neg hiW, if_neg hj]
    have := mul_lt_mul_of_pos_right hcast (show (0 : Int) < T / (W : Int) by omega)
    linarith

theorem planBnd_mono (T : Int) (W : Nat) (hW : 1 ≤ W) (hWT : (W : Int) ≤ T) :
    ∀ i j : Nat, i ≤ j → j ≤ W → planBnd T W i ≤ planBnd T W j := by
  intro i j hij hjW
  rcases Nat.lt_or_ge i j with h | h
  · exact le_of_lt (planBnd_strictMono T W hW hWT i j h hjW)
  · have : i = j := by omega
    simp [this]

theorem list_range_map_sum (f : Nat → Int) (n : Nat) :
    ((List.range n).map f).sum = ∑ i in Finset.range n, f i := by
  induction n with
  | zero => simp
  | succ n ih => rw [List.range_succ, Finset.sum_range_succ]; simp [ih]

theorem exists_boundary (b : Nat → Int) (n : Nat) (x : Int) :
    b 0 ≤ x → x < b n → ∃ i, i < n ∧ b i ≤ x ∧ x < b (i + 1) := by
  induction n with
  | zero => intro h0 hn; omega
  | succ n ih =>
    intro h0 hn
    by_cases hbn : b n ≤ x
    · exact ⟨n, Nat.lt_succ_self n, hbn, hn⟩
    · obtain ⟨i, hi, h1, h2⟩ := ih h0 (by omega)
      exact ⟨i, Nat.lt_succ_of_lt hi, h1, h2⟩

/-- Claim C3, counterexample: with `total_size = 1` and `W = 2` workers
(range supported, no sidecar) the fresh plan's first chunk is `[0, -1]`,
so the claim's conjunct "every chunk satisfies start ≤ end" fails even
though `total_size > 0` and `W ≥ 1`. -/
theorem c3_counterexample :
    (0 : Int) < 1 ∧ (1 : Nat) ≤ 2 ∧
      ¬ (∀ c ∈ freshChunks true 1 2, c.start ≤ c.end_) := by
  decide

/-- Claim C3 (amended): for every `total_size ≥ W ≥ 1`, when range is
supported and no sidecar exists, the plan produced by `prepare_chunks`
consists of exactly `W` pairwise-disjoint chunks whose lengths sum to
`total_size` and whose union covers `[0, total_size - 1]`, with every
chunk satisfying `start ≤ end`.  (The original claim asked this for every
`total_size > 0`; it fails whenever `total_size < W`, where
`chunk_size = 0` makes every non-final chunk the empty range `[0, -1]`
with `start > end`.) -/
theorem c3_fresh_plan_partitions (T : Int) (W : Nat) (h1 : 1 ≤ W) (h2 : (W : Int) ≤ T) :
    (freshChunks true T W).length = W ∧
    (freshChunks true T W).Pairwise (fun c c' => c.end_ < c'.start) ∧
    ((freshChunks true T W).map chunkLen).sum = T ∧
    (∀ x : Int, 0 ≤ x → x ≤ T - 1 → ∃ c ∈ freshChunks true T W, c.start ≤ x ∧ x ≤ c.end_) ∧
    (∀ c ∈ freshChunks true T W, c.start ≤ c.end_) := by
  have hW1 : (1 : Int) ≤ (W : Int) := by exact_mod_cast h1
  have hT : 0 < T := by omega
  rw [freshChunks_eq_boundaries T W hT h1]
  refine ⟨by simp, ?_, ?_, ?_, ?_⟩
  · rw [List.pairwise_map, List.pairwise_iff_getElem]
    intro i j hi hj hij
    simp only [List.length_range] at hi hj
    rw [List.getElem_range, List.getElem_range]
    have hle : planBnd T W (i + 1) ≤ planBnd T W j :=
      planBnd_mono T W h1 h2 (i + 1) j (by omega) (by omega)
    simp only
    omega
  · rw [List.map_map, list_range_map_sum]
    have hcongr : ∀ i ∈ Finset.range W,
        (chunkLen ∘ fun i => ({ start := planBnd T W i, end_ := planBnd T W (i + 1) - 1 } : ChunkInfo)) i
          = planBnd T W (i + 1) - planBnd T W i := by
      intro i _
      simp [chunkLen]
      ring
    rw [Finset.sum_congr rfl hcongr, Finset.sum_range_sub (planBnd T W) W]
    rw [planBnd_zero T W h1]
    simp [planBnd]
  · intro x hx0 hx1
    have hxW : x < planBnd T W W := by
      have hWW : planBnd T W W = T := by simp [planBnd]
      omega
    obtain ⟨i, hiW, hbi, hbi1⟩ :=
      exists_boundary (planBnd T W) W x (by rw [planBnd_zero T W h1]; exact hx0) hxW
    refine ⟨{ start := planBnd T W i, end_ := planBnd T W (i + 1) - 1 },
      List.mem_map_of_mem _ (List.mem_range.mpr hiW), ?_, ?_⟩
    · exact hbi
    · simp only
      omega
  · intro c hc
    rw [List.mem_map] at hc
    obtain ⟨i, hi, rfl⟩ := hc
    rw [List.mem_range] at hi
    have := planBnd_strictMono T W h1 h2 i (i + 1) (Nat.lt_succ_self i) (by omega)
    simp only
    omega

/-- Witness instantiating `c3_fresh_plan_partitions` at `total_size = 10`,
`W = 3` (the plan is `[0,2],[3,5],[6,9]`). -/
theorem c3_fresh_plan_partitions_witness :
    (freshChunks true 10 3).length = 3 ∧ ((freshChunks true 10 3).map chunkLen).sum = 10 :=
  ⟨(c3_fresh_plan_partitions 10 3 (by decide) (by decide)).1,
   (c3_fresh_plan_partitions 10 3 (by decide) (by decide)).2.2.1⟩

/-! ## Properties of the claim scan -/

/-- A chunk `get_next_chunk` may hand out: not completed and unclaimed. -/
def claimable (c : ChunkInfo) : Prop :=
  c.completed = false ∧ c.thread_id = none

instance (c : ChunkInfo) : Decidable (claimable c) := by
  unfold claimable
  infer_instance

theorem gnc_nil (wid : Nat) : get_next_chunk [] wid = (none, []) := rfl

theorem gnc_cons (c : ChunkInfo) (rest : List ChunkInfo) (wid : Nat) :
    get_next_chunk (c :: rest) wid =
      if c.completed = false ∧ c.thread_id = none then
        (some 0, { c with thread_id := some wid } :: rest)
      else
        ((get_next_chunk rest wid).1.map (· + 1), c :: (get_next_chunk rest wid).2) := rfl

theorem gnc_none_iff (wid : Nat) : ∀ cs : List ChunkInfo,
    (get_next_chunk cs wid).1 = none ↔ ∀ c ∈ cs, ¬ claimable c := by
  intro cs
  induction cs with
  | nil => simp [gnc_nil]
  | cons c rest ih =>
    by_cases h : c.completed = false ∧ c.thread_id = none
    · rw [gnc_cons, if_pos h]
      simp only [List.mem_cons]
      constructor
      · intro hfalse
        exact absurd hfalse (by simp)
      · intro hall
        exact absurd h (hall c (Or.inl rfl))
    · rw [gnc_cons, if_neg h]
      simp only [List.mem_cons]
      constructor
      · intro hnone d hd
        have hrest : (get_next_chunk rest wid).1 = none := by
          rcases hopt : (get_next_chunk rest wid).1 with _ | k
          · rfl
          · rw [hopt] at hnone; simp at hnone
        rcases hd with rfl | hd
        · exact h
        · exact (ih.mp hrest) d hd
      · intro hall
        have hrest : (get_next_chunk rest wid).1 = none :=
          ih.mpr (fun d hd => hall d (Or.inr hd))
        simp [hrest]

theorem gnc_none_snd (wid : Nat) : ∀ cs : List ChunkInfo,
    (get_next_chunk cs wid).1 = none → (get_next_chunk cs wid).2 = cs := by
  intro cs
  induction cs with
  | nil => simp [gnc_nil]
  | cons c rest ih =>
    by_cases h : c.completed = false ∧ c.thread_id = none
    · rw [gnc_cons, if_pos h]
      intro hfalse
      exact absurd hfalse (by simp)
    · rw [gnc_cons, if_neg h]
      intro hnone
      have hrest : (get_next_chunk rest wid).1 = none := by
        rcases hopt : (get_next_chunk rest wid).1 with _ | k
        · rfl
        · rw [hopt] at hnone; simp at hnone
      simp [ih hrest]

theorem gnc_some (wid : Nat) : ∀ (cs : List ChunkInfo) (i : Nat),
    (get_next_chunk cs wid).1 = some i →
    ∃ c, cs.get? i = some c ∧ claimable c ∧
      (∀ j, j < i → ∀ cj, cs.get? j = some cj → ¬ claimable cj) ∧
      (get_next_chunk cs wid).2 = cs.set i { c with thread_id := some wid } := by
  intro cs
  induction cs with
  | nil => intro i h; simp [gnc_nil] at h
  | cons c rest ih =>
    intro i h
    by_cases hc : c.completed = false ∧ c.thread_id = none
    · rw [gnc_cons, if_pos hc] at h ⊢
      obtain rfl : (0 : Nat) = i := Option.some.inj h
      exact ⟨c, rfl, hc, by omega, rfl⟩
    · rw [gnc_cons, if_neg hc] at h ⊢
      rcases hr : (get_next_chunk rest wid).1 with _ | i0
      · rw [hr] at h; simp at h
      · rw [hr] at h
        simp only [Option.map_some] at h
        obtain rfl : i0 + 1 = i := Option.some.inj h
        obtain ⟨d, hd, hcl, hfirst, hset⟩ := ih i0 hr
        refine ⟨d, by simpa using hd, hcl, ?_, ?_⟩
        · intro j hj cj hcj
          cases j with
          | zero =>
            simp only [List.get?_cons_zero] at hcj
            obtain rfl : c = cj := Option.some.inj hcj
            exact hc
          | succ j0 =>
            simp only [List.get?_cons_succ] at hcj
            exact hfirst j0 (by omega) cj hcj
        · simp [hset]

/-- Claim C9 (confirmed): `get_next_chunk` scans the chunk vector in
order and returns the first chunk whose `completed` is false and whose
claimant field (`thread_id`) is unset, marking it with the calling
worker's id — or `None` (leaving the vector unchanged) when no such chunk
exists.  Consequently a chunk whose `thread_id` was set by a worker that
later failed after max retries is never returned again in the same
session: any chunk with `thread_id ≠ none` is never handed out. -/
theorem c9_get_next_chunk_first_unclaimed (cs : List ChunkInfo) (wid : Nat) :
    ((get_next_chunk cs wid).1 = none ↔ ∀ c ∈ cs, ¬ claimable c) ∧
    ((get_next_chunk cs wid).1 = none → (get_next_chunk cs wid).2 = cs) ∧
    (∀ i, (get_next_chunk cs wid).1 = some i →
      ∃ c, cs.get? i = some c ∧ claimable c ∧
        (∀ j, j < i → ∀ cj, cs.get? j = some cj → ¬ claimable cj) ∧
        (get_next_chunk cs wid).2 = cs.set i { c with thread_id := some wid }) ∧
    (∀ i c, cs.get? i = some c → c.thread_id ≠ none → (get_next_chunk cs wid).1 ≠ some i) := by
  refine ⟨gnc_none_iff wid cs, gnc_none_snd wid cs, gnc_some wid cs, ?_⟩
  intro i c hget hti hsome
  obtain ⟨d, hd, hcl, _, _⟩ := gnc_some wid cs i hsome
  rw [hget] at hd
  obtain rfl : c = d := Option.some.injEq _ _ ▸ hd
  exact hti hcl.2

/-- Witness instantiating `c9_get_next_chunk_first_unclaimed`: in a
vector whose chunk 0 is completed and whose chunk 1 is claimed by worker
1 (e.g. stranded after retry exhaustion), worker 7 is handed chunk 2. -/
theorem c9_get_next_chunk_first_unclaimed_witness :
    (get_next_chunk
        [{ start := 0, end_ := 9, downloaded := 10, completed := true },
         { start := 10, end_ := 19, downloaded := 3, retries := 5, thread_id := some 1 },
         { start := 20, end_ := 29 }] 7).1 ≠ some 1 :=
  (c9_get_next_chunk_first_unclaimed _ 7).2.2.2 1
    { start := 10, end_ := 19, downloaded := 3, retries := 5, thread_id := some 1 }
    (by decide) (by decide)

/-! ## Properties of the block stream -/

theorem streamBlocks_fields : ∀ (bs : List Nat) (c : ChunkInfo),
    (streamBlocks c bs).start = c.start ∧
    (streamBlocks c bs).end_ = c.end_ ∧
    (streamBlocks c bs).completed = c.completed ∧
    (streamBlocks c bs).retries = c.retries ∧
    (streamBlocks c bs).thread_id = c.thread_id ∧
    (streamBlocks c bs).downloaded = c.downloaded + (bs.sum : Int) := by
  intro bs
  induction bs with
  | nil => intro c; simp [streamBlocks]
  | cons n rest ih =>
    intro c
    have hstep : streamBlocks c (n :: rest) = streamBlocks (applyBlock c n) rest := rfl
    rw [hstep]
    obtain ⟨h1, h2, h3, h4, h5, h6⟩ := ih (applyBlock c n)
    refine ⟨h1, h2, h3, h4, h5, ?_⟩
    rw [h6]
    simp [applyBlock]
    ring

/-- Claim C4, counterexample: the `[0, -1]` sentinel chunk (range
unsupported, unknown size) streamed through the transfer loop with a
single 8 KiB block ends with `downloaded = 8192` and `completed = true`,
while `end - start + 1 = 0`: both `downloaded ≤ end - start + 1` and
`completed ⇒ downloaded = end - start + 1` fail, because the loop adds
every received block to `downloaded` without any bound check. -/
theorem c4_counterexample :
    (downloadAttemptBody { start := 0, end_ := -1 } [8192]).completed = true ∧
    (downloadAttemptBody { start := 0, end_ := -1 } [8192]).downloaded = 8192 ∧
    chunkLen { start := 0, end_ := -1 } = 0 ∧
    ¬ ((downloadAttemptBody { start := 0, end_ := -1 } [8192]).downloaded ≤
        chunkLen (downloadAttemptBody { start := 0, end_ := -1 } [8192])) := by
  decide

/-- Claim C4 (amended): during a transfer, `c.downloaded` grows by exactly
the bytes of each accepted block (hence is monotonically non-decreasing
along the stream) and `completed` is never reverted by streaming; the
success path always sets `completed`.  The bound
`downloaded = end - start + 1` at completion holds exactly when the
response body delivers the requested remainder of the chunk (as a 206
honoring the Range header does) — it fails for the `[0, -1]` sentinel
chunk and for a 200 full-body response to a partial chunk, where
`downloaded` counts every body byte with no clamp to the chunk length. -/
theorem c4_stream_monotone_no_revert (c : ChunkInfo) (blocks : List Nat) :
    (streamBlocks c blocks).downloaded = c.downloaded + (blocks.sum : Int) ∧
    (∀ pre suf, blocks = pre ++ suf →
      (streamBlocks c pre).downloaded ≤ (streamBlocks c blocks).downloaded) ∧
    (streamBlocks c blocks).completed = c.completed ∧
    (downloadAttemptBody c blocks).completed = true ∧
    (c.downloaded + (blocks.sum : Int) = chunkLen c →
      (downloadAttemptBody c blocks).downloaded = chunkLen (downloadAttemptBody c blocks)) := by
  obtain ⟨hs, he, hc, _, _, hd⟩ := streamBlocks_fields blocks c
  refine ⟨hd, ?_, hc, rfl, ?_⟩
  · intro pre suf hsplit
    obtain ⟨_, _, _, _, _, hdpre⟩ := streamBlocks_fields pre c
    have hsum : pre.sum ≤ blocks.sum := by
      rw [hsplit, List.sum_append]
      omega
    rw [hd, hdpre]
    have : (pre.sum : Int) ≤ (blocks.sum : Int) := by exact_mod_cast hsum
    omega
  · intro hexact
    show (streamBlocks c blocks).downloaded = chunkLen (finishChunk (streamBlocks c blocks))
    simp only [chunkLen, finishChunk]
    rw [hd, hs, he]
    simp only [chunkLen] at hexact
    omega

/-- Witness instantiating `c4_stream_monotone_no_revert` on the chunk
`[0, 9]` receiving blocks `[4, 6]` (exactly its 10 bytes). -/
theorem c4_stream_monotone_no_revert_witness :
    (streamBlocks { start := 0, end_ := 9 } [4]).downloaded ≤
      (streamBlocks { start := 0, end_ := 9 } [4, 6]).downloaded ∧
    (downloadAttemptBody { start := 0, end_ := 9 } [4, 6]).downloaded =
      chunkLen (downloadAttemptBody { start := 0, end_ := 9 } [4, 6]) :=
  ⟨(c4_stream_monotone_no_revert { start := 0, end_ := 9 } [4, 6]).2.1 [4] [6] (by decide),
   (c4_stream_monotone_no_revert { start := 0, end_ := 9 } [4, 6]).2.2.2.2 (by decide)⟩

/-! ## Pause, resume and the block loop -/

/-- Claim C2, counterexample: a worker inside the response-body block loop
with the pause flag set and the stop flag clear still writes the next
8 KiB block and increases `downloaded_size` — the block loop (engine.py
lines 179-190) polls only `is_stopped`; `is_paused` is polled only between
chunks (lines 146-148). -/
theorem c2_counterexample :
    ∃ s s' : WState, WStep s s' ∧ s.is_paused = true ∧ s.is_stopped = false ∧
      s'.downloaded_size ≠ s.downloaded_size := by
  refine ⟨⟨[{ start := 0, end_ := 99999, thread_id := some 3 }], 0, true, false, 3, some 0,
      .streaming [8192]⟩, _,
    WStep.stream_write _ 8192 [] 0 { start := 0, end_ := 99999, thread_id := some 3 }
      rfl rfl rfl rfl, rfl, rfl, by decide⟩

/-- Claim C2 (amended): `downloaded_size` never decreases under any worker
step (so after `resume` it increases again without regressing), and while
the pause flag is set and the stop flag is clear a worker BETWEEN chunks
(at the loop head or in the pause loop) only spins in the pause loop,
writing nothing and claiming nothing; but pause does not interrupt a
worker that is mid-chunk — the original claim that no worker writes a
further 8 KiB block while paused is false (see the counterexample).
After `resume`, a waiting worker can claim a chunk and write again. -/
theorem c2_pause_at_chunk_boundaries :
    (∀ s s' : WState, WStep s s' → s.downloaded_size ≤ s'.downloaded_size) ∧
    (∀ s s' : WState, WStep s s' → s.is_paused = true → s.is_stopped = false →
      (s.pc = .loopHead ∨ s.pc = .pauseLoop) → s' = { s with pc := .pauseLoop }) ∧
    (∀ (s : WState) (i : Nat) (cs : List ChunkInfo) (c : ChunkInfo),
      s.pc = .pauseLoop → s.is_stopped = false →
      get_next_chunk s.chunks s.worker_id = (some i, cs) → cs.get? i = some c →
      ∃ s₁ s₂, WStep (resumeEngine s) s₁ ∧ WStep s₁ s₂ ∧
        s.downloaded_size < s₂.downloaded_size) := by
  refine ⟨?_, ?_, ?_⟩
  · intro s s' h
    cases h <;> simp
  · intro s s' h hp hstop hpc
    cases h <;> simp_all
  · intro s i cs c hpc hstop hclaim hget
    refine ⟨_, _,
      WStep.claim_some (resumeEngine s) i cs [1]
        (Or.inr (by simpa [resumeEngine] using hpc))
        (by simpa [resumeEngine] using hstop) rfl
        (by simpa [resumeEngine] using hclaim),
      WStep.stream_write _ 1 [] i c rfl
        (by simpa [resumeEngine] using hstop) rfl (by simpa [resumeEngine] using hget),
      ?_⟩
    simp [resumeEngine]

/-- Witness instantiating `c2_pause_at_chunk_boundaries`: a paused worker
at the pause loop, once resumed, claims the single free chunk and writes a
block. -/
theorem c2_pause_at_chunk_boundaries_witness :
    ∃ s₁ s₂, WStep (resumeEngine ⟨[{ start := 0, end_ := 9 }], 0, true, false, 2, none,
        .pauseLoop⟩) s₁ ∧ WStep s₁ s₂ ∧
      (⟨[{ start := 0, end_ := 9 }], 0, true, false, 2, none,
        .pauseLoop⟩ : WState).downloaded_size < s₂.downloaded_size :=
  c2_pause_at_chunk_boundaries.2.2
    ⟨[{ start := 0, end_ := 9 }], 0, true, false, 2, none, .pauseLoop⟩
    0 [{ start := 0, end_ := 9, thread_id := some 2 }] { start := 0, end_ := 9, thread_id := some 2 }
    rfl rfl (by decide) (by decide)

/-! ## Properties of the retry loop -/

theorem retryGo_events_length (sr : Bool) (outcome : Nat → AttemptResult) :
    ∀ (fuel attempt : Nat) (c : ChunkInfo),
      (retryGo sr outcome fuel attempt c).events.length ≤ fuel := by
  intro fuel
  induction fuel with
  | zero => intro attempt c; simp [retryGo]
  | succ n ih =>
    intro attempt c
    cases h : outcome attempt with
    | success w => simp [retryGo, h]
    | failure w =>
      simp only [retryGo, h, List.length_cons]
      exact Nat.succ_le_succ (ih (attempt + 1) _)

theorem retryGo_events_range (sr : Bool) (outcome : Nat → AttemptResult) :
    ∀ (fuel attempt : Nat) (c : ChunkInfo),
      ∀ e ∈ (retryGo sr outcome fuel attempt c).events,
        e.rangeFrom = e.chunkBefore.start + e.chunkBefore.downloaded ∧
        e.rangeTo = e.chunkBefore.end_ ∧
        e.sentRange = (sr && decide (e.rangeFrom ≤ e.rangeTo)) := by
  intro fuel
  induction fuel with
  | zero => intro attempt c e he; simp [retryGo] at he
  | succ n ih =>
    intro attempt c e he
    cases h : outcome attempt with
    | success w =>
      simp only [retryGo, h, List.mem_singleton] at he
      subst he
      exact ⟨rfl, rfl, rfl⟩
    | failure w =>
      simp only [retryGo, h, List.mem_cons] at he
      rcases he with rfl | he
      · exact ⟨rfl, rfl, rfl⟩
      · exact ih (attempt + 1) _ e he

theorem retryGo_sleeps (sr : Bool) (outcome : Nat → AttemptResult) :
    ∀ (fuel attempt : Nat) (c : ChunkInfo),
      (retryGo sr outcome fuel attempt c).sleeps =
        (List.range (retryGo sr outcome fuel attempt c).sleeps.length).map
          (fun k => min (2 ^ (attempt + k)) 30) := by
  intro fuel
  induction fuel with
  | zero => intro attempt c; simp [retryGo]
  | succ n ih =>
    intro attempt c
    cases h : outcome attempt with
    | success w => simp [retryGo, h]
    | failure w =>
      simp only [retryGo, h, List.length_cons, List.range_succ_eq_map, List.map_cons,
        List.map_map]
      congr 1
      rw [ih (attempt + 1)]
      simp only [List.length_map, List.length_range]
      apply List.map_congr_left
      intro k _
      have hk : attempt + 1 + k = attempt + (k + 1) := by omega
      simp [Function.comp, hk]

theorem retryGo_final_retries (sr : Bool) (outcome : Nat → AttemptResult) :
    ∀ (fuel attempt : Nat) (c : ChunkInfo),
      (retryGo sr outcome fuel attempt c).finalChunk.retries =
        c.retries + (retryGo sr outcome fuel attempt c).sleeps.length := by
  intro fuel
  induction fuel with
  | zero => intro attempt c; simp [retryGo]
  | succ n ih =>
    intro attempt c
    cases h : outcome attempt with
    | success w =>
      simp only [retryGo, h, List.length_nil]
      show (downloadAttemptBody c w).retries = c.retries + 0
      obtain ⟨_, _, _, h4, _, _⟩ := streamBlocks_fields w c
      simp [downloadAttemptBody, finishChunk, h4]
    | failure w =>
      simp only [retryGo, h, List.length_cons]
      rw [ih (attempt + 1) _]
      obtain ⟨_, _, _, h4, _, _⟩ := streamBlocks_fields w c
      simp only [h4]
      omega

theorem retryGo_head_chunkBefore (sr : Bool) (outcome : Nat → AttemptResult)
    (fuel attempt : Nat) (c : ChunkInfo) (e : AttemptEvent) :
    (retryGo sr outcome fuel attempt c).events.head? = some e → e.chunkBefore = c := by
  cases fuel with
  | zero => intro h; simp [retryGo] at h
  | succ n =>
    cases h : outcome attempt with
    | success w =>
      intro hh
      simp only [retryGo, h, List.head?_cons] at hh
      obtain rfl := Option.some.inj hh
      rfl
    | failure w =>
      intro hh
      simp only [retryGo, h, List.head?_cons] at hh
      obtain rfl := Option.some.inj hh
      rfl

theorem retryGo_chain (sr : Bool) (outcome : Nat → AttemptResult) :
    ∀ (fuel attempt : Nat) (c : ChunkInfo),
      (retryGo sr outcome fuel attempt c).events.Chain' (fun e e' => ∃ w,
        e'.chunkBefore = { streamBlocks e.chunkBefore w with
                             retries := e.chunkBefore.retries + 1 }) := by
  intro fuel
  induction fuel with
  | zero => intro attempt c; simp [retryGo]
  | succ n ih =>
    intro attempt c
    cases h : outcome attempt with
    | success w => simp [retryGo, h]
    | failure w =>
      simp only [retryGo, h]
      rw [List.chain'_cons']
      refine ⟨?_, ih (attempt + 1) _⟩
      intro e2 he2
      refine ⟨w, ?_⟩
      have := retryGo_head_chunkBefore sr outcome n (attempt + 1)
        { streamBlocks c w with retries := (streamBlocks c w).retries + 1 } e2
        (by simpa using he2)
      rw [this]
      obtain ⟨_, _, _, h4, _, _⟩ := streamBlocks_fields w c
      simp only
      rw [h4]

/-- Claim C7 (confirmed): the per-chunk retry loop makes at most
`max_retries = 5` attempts; every attempt computes the request range
`[start + downloaded, end]` from the chunk state at that attempt and
sends a Range header iff range is supported and that interval is
non-empty; the k-th backoff sleep (one per failed attempt, failures
occupy consecutive attempts from 0) is `min(2 ^ k, 30)` seconds;
`chunk.retries` is incremented once per failure; and each following
attempt starts from the chunk state updated with the blocks already
written (partial progress is preserved). -/
theorem c7_retry_loop (sr : Bool) (outcome : Nat → AttemptResult) (c : ChunkInfo) :
    (download_chunk_with_retry sr outcome c).events.length ≤ 5 ∧
    (∀ e ∈ (download_chunk_with_retry sr outcome c).events,
      e.rangeFrom = e.chunkBefore.start + e.chunkBefore.downloaded ∧
      e.rangeTo = e.chunkBefore.end_ ∧
      e.sentRange = (sr && decide (e.rangeFrom ≤ e.rangeTo))) ∧
    (download_chunk_with_retry sr outcome c).sleeps =
      (List.range (download_chunk_with_retry sr outcome c).sleeps.length).map
        (fun k => min (2 ^ k) 30) ∧
    (download_chunk_with_retry sr outcome c).finalChunk.retries =
      c.retries + (download_chunk_with_retry sr outcome c).sleeps.length ∧
    (download_chunk_with_retry sr outcome c).events.Chain' (fun e e' => ∃ w,
      e'.chunkBefore = { streamBlocks e.chunkBefore w with
                           retries := e.chunkBefore.retries + 1 }) := by
  refine ⟨retryGo_events_length sr outcome 5 0 c, retryGo_events_range sr outcome 5 0 c,
    ?_, retryGo_final_retries sr outcome 5 0 c, retryGo_chain sr outcome 5 0 c⟩
  have := retryGo_sleeps sr outcome 5 0 c
  simpa using this

/-- Witness instantiating `c7_retry_loop` on a server that fails every
attempt after delivering 100 bytes: the first attempt's trace entry
requests `[0, 999]` with a Range header. -/
theorem c7_retry_loop_witness :
    (download_chunk_with_retry true (fun _ => .failure [100]) { start := 0, end_ := 999 }).events.length ≤ 5 ∧
    (⟨{ start := 0, end_ := 999 }, 0, 999, true, true⟩ : AttemptEvent).rangeFrom =
      (⟨{ start := 0, end_ := 999 }, 0, 999, true, true⟩ : AttemptEvent).chunkBefore.start +
      (⟨{ start := 0, end_ := 999 }, 0, 999, true, true⟩ : AttemptEvent).chunkBefore.downloaded :=
  ⟨(c7_retry_loop true (fun _ => .failure [100]) { start := 0, end_ := 999 }).1,
   ((c7_retry_loop true (fun _ => .failure [100]) { start := 0, end_ := 999 }).2.1
      ⟨{ start := 0, end_ := 999 }, 0, 999, true, true⟩ (by decide)).1⟩

/-! ## Sidecar discard, probe failure, cleanup, verification -/

/-- Claim C1 (code bug): when the sidecar exists but its `url` disagrees
with the live probe (first conjunct) or it cannot be read or parsed
(second conjunct), `load_metadata` deletes the sidecar and returns — but
`prepare_chunks` builds the fresh partition only in its `else` branch
(taken when no sidecar file exists), so the chunk vector is left EMPTY,
not equal to the fresh partition of `[0, total_size - 1]` (third and
fourth conjuncts), and this run downloads nothing while the source
reports "Starting new download". -/
theorem c1_discarded_sidecar_leaves_no_chunks :
    prepare_chunks (some (some { url := some "http://b", total_size := some 100, chunks := some [] })) "http://a" 100 true 2 = .ok [] 0 true ∧
    prepare_chunks (some none) "http://a" 100 true 2 = .ok [] 0 true ∧
    prepare_chunks none "http://a" 100 true 2 =
      .ok [{ start := 0, end_ := 49 }, { start := 50, end_ := 99 }] 0 false ∧
    ([] : List ChunkInfo) ≠ [{ start := 0, end_ := 49 }, { start := 50, end_ := 99 }] := by
  decide

/-- Claim C5 (code bug): `download()` releases the session in a `finally`
block whose first statement is `monitor_task.cancel()`, but `monitor_task`
is a local bound only after `initialize`, `prepare_chunks` and the
pre-allocation succeed.  If `prepare_chunks` raises (e.g. the `TypeError`
from `ChunkInfo(**chunk)` on a malformed sidecar chunk dict), the
`finally` block raises `UnboundLocalError` and `self.session.close()` is
never executed: the created session is leaked and the monitor was never
cancelled (first four conjuncts).  Only runs that reach
`asyncio.create_task` clean up both resources (last conjunct). -/
theorem c5_early_exception_leaks_session :
    (download_run false true false false).sessionCreated = true ∧
    (download_run false true false false).sessionClosed = false ∧
    (download_run false true false false).monitorCancelled = false ∧
    (download_run false true false false).finallyRaisedNameError = true ∧
    (download_run false false false false).sessionClosed = true ∧
    (download_run false false false false).monitorCancelled = true ∧
    (download_run false false false true).sessionClosed = true ∧
    (download_run false false false true).monitorCancelled = true := by
  decide

/-- Claim C6, counterexample: when the capability probe fails, the
`except` clause (engine.py lines 99-101) only resets `capabilities`; the
statement `self.num_threads = 1` sits inside the `try` body and is never
executed on that path, so an engine constructed with 8 workers keeps
`num_threads = 8` — the claim's "worker count is forced to 1" conjunct is
false. -/
theorem c6_counterexample :
    (detect_capabilities none 0 8).capabilities.supports_range = false ∧
    (detect_capabilities none 0 8).num_threads ≠ 1 := by
  decide

/-- Claim C6 (amended): if the capability probe fails for any reason, the
engine sets capabilities to the defaults
`{supports_range = false, supports_resume = false}`, leaves `total_size`
at its initial 0, reports status, and proceeds with a single streaming
chunk `[0, -1]`; `num_threads` is left UNCHANGED (the extra workers find
no chunk and exit at once) — the worker count is forced to 1 only when
the probe completes and reports no range support. -/
theorem c6_probe_failure_defaults (nt0 : Nat) (url : String) :
    (detect_capabilities none 0 nt0).capabilities = {} ∧
    (detect_capabilities none 0 nt0).total_size = 0 ∧
    (detect_capabilities none 0 nt0).num_threads = nt0 ∧
    (detect_capabilities none 0 nt0).statuses = [.probeFailed] ∧
    prepare_chunks none url 0 false nt0 = .ok [{ start := 0, end_ := -1 }] 0 false ∧
    (∀ (hs : List (String × String)) (ts0 : Int),
      (detect_capabilities (some hs) ts0 nt0).statuses = [.probeOk] →
      (detect_capabilities (some hs) ts0 nt0).capabilities.supports_range = false →
      (detect_capabilities (some hs) ts0 nt0).num_threads = 1) := by
  refine ⟨rfl, rfl, rfl, rfl, ?_, ?_⟩
  · simp [prepare_chunks, freshChunks]
  · intro hs ts0 hok hrange
    cases hts : probeTotalSize hs with
    | none => simp [detect_capabilities, hts] at hok
    | some ts =>
      simp only [detect_capabilities, hts] at hrange ⊢
      simp [hrange]

/-- Witness instantiating `c6_probe_failure_defaults` at 8 workers: the
probe-failure path keeps `num_threads = 8`, while a successful probe with
no `Accept-Ranges` header forces it to 1. -/
theorem c6_probe_failure_defaults_witness :
    (detect_capabilities none 0 8).num_threads = 8 ∧
    (detect_capabilities (some [("Content-Length", "5")]) 0 8).num_threads = 1 :=
  ⟨(c6_probe_failure_defaults 8 "u").2.2.1,
   (c6_probe_failure_defaults 8 "u").2.2.2.2.2 [("Content-Length", "5")] 0
     (by decide) (by decide)⟩

/-- Claim C8 (confirmed): `verify_download` never touches the destination
file; if the destination is missing, or `total_size > 0` and the on-disk
size differs, it reports status and returns with the destination AND the
sidecar left in place; only when those checks pass does it hash the file,
report the first 16 hex characters of the SHA-256 digest, and delete the
sidecar (and nothing else). -/
theorem c8_verifier_frame (total_size : Int) (fs : FsState) :
    ((verify_download total_size fs).1.fileExists = fs.fileExists ∧
     (verify_download total_size fs).1.fileBytes = fs.fileBytes) ∧
    (fs.fileExists = false →
      (verify_download total_size fs).1 = fs ∧
      (verify_download total_size fs).2 = [.verifying, .fileNotFound]) ∧
    (fs.fileExists = true → total_size > 0 → (fs.fileBytes.length : Int) ≠ total_size →
      (verify_download total_size fs).1 = fs ∧
      (verify_download total_size fs).2 =
        [.verifying, .sizeMismatch total_size fs.fileBytes.length]) ∧
    (fs.fileExists = true → (total_size ≤ 0 ∨ (fs.fileBytes.length : Int) = total_size) →
      (verify_download total_size fs).1 = { fs with sidecarExists := false } ∧
      (verify_download total_size fs).2 =
        [.verifying, .calculating, .verifyComplete ((sha256hex fs.fileBytes).take 16)]) := by
  by_cases h1 : fs.fileExists = false
  · have hv : verify_download total_size fs = (fs, [.verifying, .fileNotFound]) := by
      simp [verify_download, h1]
    rw [hv]
    refine ⟨⟨rfl, rfl⟩, fun _ => ⟨rfl, rfl⟩, ?_, ?_⟩
    · intro hex; rw [hex] at h1; simp at h1
    · intro hex; rw [hex] at h1; simp at h1
  · by_cases h2 : total_size > 0 ∧ (fs.fileBytes.length : Int) ≠ total_size
    · have hv : verify_download total_size fs =
          (fs, [.verifying, .sizeMismatch total_size fs.fileBytes.length]) := by
        simp [verify_download, h1, h2.1, h2.2]
      rw [hv]
      refine ⟨⟨rfl, rfl⟩, ?_, fun _ _ _ => ⟨rfl, rfl⟩, ?_⟩
      · intro hex; exact absurd hex h1
      · intro _ hsz
        rcases hsz with hle | heq
        · exact absurd h2.1 (by omega)
        · exact absurd heq h2.2
    · have hv : verify_download total_size fs =
          ({ fs with sidecarExists := false },
           [.verifying, .calculating, .verifyComplete ((sha256hex fs.fileBytes).take 16)]) := by
        simp only [verify_download, if_neg h1, if_neg h2]
      rw [hv]
      refine ⟨⟨rfl, rfl⟩, ?_, ?_, fun _ _ => ⟨rfl, rfl⟩⟩
      · intro hex; exact absurd hex h1
      · intro _ hpos hne
        exact absurd ⟨hpos, hne⟩ h2

set_option maxRecDepth 10000 in
/-- Witness instantiating `c8_verifier_frame` on an existing empty file
with `total_size = 0` and a sidecar present: the checks pass, only the
sidecar is deleted, and the reported digest is the first 16 hex
characters of the SHA-256 of the empty byte string. -/
theorem c8_verifier_frame_witness :
    (verify_download 0 ⟨true, [], true⟩).1 =
      { fileExists := true, fileBytes := [], sidecarExists := false } ∧
    (verify_download 0 ⟨true, [], true⟩).2 =
      [.verifying, .calculating, .verifyComplete "e3b0c44298fc1c14"] :=
  have h := (c8_verifier_frame 0 ⟨true, [], true⟩).2.2.2 rfl (Or.inl (by decide))
  ⟨h.1, by
    rw [h.2]
    decide⟩

/-- Claim C10 (confirmed): the probe sets `supports_resume` iff the
`Accept-Ranges` header is present, regardless of its value.  A server
replying `Accept-Ranges: none` yields `supports_resume = true` with
`supports_range = false`, and since `save_metadata` writes the sidecar
exactly when `supports_resume` is true, sidecar metadata files are
written for such servers even though range requests are unusable. -/
theorem c10_accept_ranges_presence (hs : List (String × String)) (ts0 : Int) (nt0 : Nat) :
    ((detect_capabilities (some hs) ts0 nt0).statuses = [.probeOk] →
      (detect_capabilities (some hs) ts0 nt0).capabilities.supports_resume =
        (lookupHeader hs "Accept-Ranges").isSome) ∧
    (detect_capabilities (some [("Accept-Ranges", "none"), ("Content-Length", "100")])
        0 8).capabilities.supports_resume = true ∧
    (detect_capabilities (some [("Accept-Ranges", "none"), ("Content-Length", "100")])
        0 8).capabilities.supports_range = false ∧
    (∀ (caps : ServerCapabilities) (url filename : String) (total : Int)
        (chunks : List ChunkInfo) (created : String) (mirrors : List String),
      save_metadata caps url filename total chunks created mirrors = none ↔
        caps.supports_resume = false) := by
  refine ⟨?_, by decide, by decide, ?_⟩
  · intro hok
    cases hts : probeTotalSize hs with
    | none => simp [detect_capabilities, hts] at hok
    | some ts => simp [detect_capabilities, hts, probeCaps]
  · intro caps url filename total chunks created mirrors
    unfold save_metadata
    split_ifs with h
    · simp [h]
    · simp [h]

/-- Witness instantiating `c10_accept_ranges_presence` at the
`Accept-Ranges: none` response: the probe succeeds and records resume
support because the header is present. -/
theorem c10_accept_ranges_presence_witness :
    (detect_capabilities (some [("Accept-Ranges", "none"), ("Content-Length", "100")])
        0 8).capabilities.supports_resume =
      (lookupHeader [("Accept-Ranges", "none"), ("Content-Length", "100")]
        "Accept-Ranges").isSome :=
  (c10_accept_ranges_presence [("Accept-Ranges", "none"), ("Content-Length", "100")] 0 8).1
    (by decide)

end TurboGet
